import Mathlib

/-!
Verification of the tracked-changes diff/merge engine of the writeedit
repository against its natural-language specification.

The engine is embedded shallowly.  HTML strings built by the source are
represented as the node trees a browser would parse them into:

* `Node.run s`    — a plain text run (the source emits `escapeHtml s`);
* `Node.group g`  — a `<span class="change-group">` wrapper whose children
  are `g`;
* `Node.bare g`   — `<del>`/`<ins>` markup emitted *outside* any
  change-group span (the source's `flushGroup(false)` with pending
  content; unreachable in practice but kept for fidelity);
* `GNode.del s` / `GNode.ins s` — `<del>`/`<ins>` elements with text `s`;
* `GNode.txt s`   — a loose text node inside a group (appears after
  part_012's accept/reject unwraps an `ins`/`del` inside the clone).

Node texts are stored unescaped, exactly as `textContent` would return
them after the browser parses the escaped HTML; `escapeHtml` is embedded
separately for reference.  While-loops are embedded as fuel-indexed
recursions returning `Option`; a `none` result means the source loop has
not terminated within the given fuel.
-/

/-- Child of a change-group span: a `<del>` element, an `<ins>` element,
or a loose text node. -/
inductive GNode where
  | del : String → GNode
  | ins : String → GNode
  | txt : String → GNode
deriving DecidableEq

/-- Top-level node of a rendered tracked document. -/
inductive Node where
  | run : String → Node
  | group : List GNode → Node
  | bare : List GNode → Node
deriving DecidableEq

/-- One part of a word-diff result (the `{value, added, removed}` objects
produced by the diff library): `equal` is neither added nor removed. -/
inductive DPart where
  | equal : String → DPart
  | ins : String → DPart
  | del : String → DPart
deriving DecidableEq

/-- `escapeHtml` from src/app/api/edit/route.ts (lines 224-229): escapes
`&`, `<`, `>`.  (page.tsx and the worker additionally escape quotes; the
claims under study do not distinguish the two.) -/
def escapeHtml (text : String) : String :=
  ((text.replace "&" "&amp;").replace "<" "&lt;").replace ">" "&gt;"

/-- Number of change-group spans among the top-level nodes. -/
def countGroups : List Node → Nat
  | [] => 0
  | Node.group _ :: t => countGroups t + 1
  | _ :: t => countGroups t

/-- Number of plain (equal) text runs among the top-level nodes. -/
def equalTokens : List Node → Nat
  | [] => 0
  | Node.run _ :: t => equalTokens t + 1
  | _ :: t => equalTokens t

/-- Text of a group child as `textContent` sees it. -/
def gnodeText : GNode → String
  | GNode.del s => s
  | GNode.ins s => s
  | GNode.txt s => s

/-- Clean-view text of a group child: `del` dropped, `ins` kept, loose
text kept. -/
def gnodeClean : GNode → String
  | GNode.del _ => ""
  | GNode.ins s => s
  | GNode.txt s => s

/-- Concatenated `textContent` of a group's children. -/
def groupText : List GNode → String
  | [] => ""
  | x :: t => gnodeText x ++ groupText t

/-- Concatenated clean text of a group's children. -/
def groupClean : List GNode → String
  | [] => ""
  | x :: t => gnodeClean x ++ groupClean t

/-- `insertedText` of a ChangeGroup: concatenation of its `ins` texts. -/
def insertedTextG : List GNode → String
  | [] => ""
  | GNode.ins s :: t => s ++ insertedTextG t
  | _ :: t => insertedTextG t

/-- `deletedText` of a ChangeGroup: concatenation of its `del` texts. -/
def deletedTextG : List GNode → String
  | [] => ""
  | GNode.del s :: t => s ++ deletedTextG t
  | _ :: t => deletedTextG t

/-- Whether a group has a loose text-node child (never true for groups
freshly produced by a formatter, which emits only `del`/`ins`). -/
def hasTxt : List GNode → Bool
  | [] => false
  | GNode.txt _ :: _ => true
  | _ :: t => hasTxt t

/-- Full `textContent` of the rendered surface (deleted and inserted text
both visible). -/
def fullText : List Node → String
  | [] => ""
  | Node.run s :: t => s ++ fullText t
  | Node.group g :: t => groupText g ++ fullText t
  | Node.bare g :: t => groupText g ++ fullText t

/-- Clean-text extraction as in `extractCleanTextFromTrackedDOM`
(src/components/EditorUI.tsx lines 92-109) before the final
trim-and-fallback: `del` elements are removed, `ins` elements are
replaced by their text, change-group wrappers are unwrapped. -/
def cleanCore : List Node → String
  | [] => ""
  | Node.run s :: t => s ++ cleanCore t
  | Node.group g :: t => groupClean g ++ cleanCore t
  | Node.bare g :: t => groupClean g ++ cleanCore t

/-- Clean-text extraction as in `updateCleanFromTracked`
(src/app/edit-tracked/page.tsx lines 124-135): it first removes every
`.change-group` element wholesale (their `ins` content included), then
removes `del` and unwraps `ins` among what is left. -/
def cleanPage : List Node → String
  | [] => ""
  | Node.run s :: t => s ++ cleanPage t
  | Node.group _ :: t => cleanPage t
  | Node.bare g :: t => groupClean g ++ cleanPage t

/-- JavaScript's `s.split(/\s+/)` on a character list: pieces separated by
maximal whitespace runs, with an empty piece at an edge that starts or
ends with whitespace ("".split gives [""]).  `skipping` is true while
inside a whitespace run whose piece has already been emitted; `cur` holds
the current piece reversed. -/
def splitGo : List Char → Bool → List Char → List String
  | [], skipping, cur => if skipping then [""] else [String.mk cur.reverse]
  | c :: cs, skipping, cur =>
    if c.isWhitespace then
      if skipping then splitGo cs true []
      else String.mk cur.reverse :: splitGo cs true []
    else splitGo cs false (c :: cur)

/-- `original.split(/\s+/)` as used throughout the diff generators. -/
def jsSplitWs (s : String) : List String :=
  splitGo s.data false []

/-- JavaScript's `s.trim()`: strip leading and trailing whitespace
(embedded at the character level so that it evaluates inside the
kernel). -/
def jsTrim (s : String) : String :=
  String.mk (((s.data.dropWhile Char.isWhitespace).reverse.dropWhile Char.isWhitespace).reverse)

namespace WordDiff

/-- The inner catch-up `while` of `generateTrackedChanges`
(src/unnamed/part_013 lines 331-338, identical in part_014): starting
from indices `(i, j)` into `w1`/`w2`, advance both indices while the
current words mismatch or one list is exhausted and the other is not;
stop at the next aligned match or when both are exhausted.  The loop
advances at least one index per iteration, so any `fuel` of at least
`w1.length + w2.length` reaches the fixed point. -/
def skipAhead (w1 w2 : List String) : Nat → Nat → Nat → Nat × Nat
  | 0, i, j => (i, j)
  | fuel + 1, i, j =>
    if (i < w1.length ∧ j < w2.length ∧ w1.getD i "" ≠ w2.getD j "") ∨
       (i < w1.length ∧ ¬ j < w2.length) ∨ (¬ i < w1.length ∧ j < w2.length) then
      skipAhead w1 w2 fuel (if i < w1.length then i + 1 else i)
        (if j < w2.length then j + 1 else j)
    else (i, j)

/-- The `<del>`/`<ins>` children of one change-group span:
`if (deleted) group += <del>; if (inserted) group += <ins>` (part_013
lines 343-345). -/
def groupOf (d ins : String) : List GNode :=
  (if d ≠ "" then [GNode.del d] else []) ++ (if ins ≠ "" then [GNode.ins ins] else [])

/-- The main `while (i < words1.length || j < words2.length)` loop of
`generateTrackedChanges` (src/unnamed/part_013 lines 323-349): matched
words are emitted as plain runs; on a mismatch, `skipAhead` finds the
next aligned match and the skipped words become one change group whose
deleted text is the skipped `words1` slice joined with single spaces and
whose inserted text is the skipped `words2` slice likewise.  `fuel`
bounds the number of iterations; `none` means the loop has not finished
within `fuel` iterations. -/
def loop (w1 w2 : List String) : Nat → Nat → Nat → List Node → Nat →
    Option (List Node × Nat)
  | 0, _, _, _, _ => none
  | fuel + 1, i, j, acc, changes =>
    if i < w1.length ∨ j < w2.length then
      if i < w1.length ∧ j < w2.length ∧ w1.getD i "" = w2.getD j "" then
        loop w1 w2 fuel (i + 1) (j + 1) (acc ++ [Node.run (w1.getD i "")]) changes
      else
        let p := skipAhead w1 w2 (w1.length + w2.length + 1) i j
        let deleted := " ".intercalate ((w1.drop i).take (p.1 - i))
        let inserted := " ".intercalate ((w2.drop j).take (p.2 - j))
        if deleted ≠ "" ∨ inserted ≠ "" then
          loop w1 w2 fuel p.1 p.2 (acc ++ [Node.group (groupOf deleted inserted)]) (changes + 1)
        else
          loop w1 w2 fuel p.1 p.2 acc changes
    else some (acc, changes)

/-- `generateTrackedChanges` over already-split word lists, run with fuel
sufficient for every terminating execution of the source loop (each
iteration advances `i + j` by at least one). -/
def generate (w1 w2 : List String) : Option (List Node × Nat) :=
  loop w1 w2 (w1.length + w2.length + 1) 0 0 [] 0

end WordDiff

/-- `generateTrackedChanges(original, edited)` from src/unnamed/part_013
(lines 316-355): words are `split(/\s+/)` with no filtering. The returned
pair is (top-level nodes of the produced HTML, the `changes` counter). -/
def generateTrackedChangesP13 (original edited : String) : Option (List Node × Nat) :=
  WordDiff.generate (jsSplitWs original) (jsSplitWs edited)

/-- `generateTrackedChanges(original, edited)` from src/unnamed/part_014
(lines 418-466): identical to part_013's, except that when the original's
`split(/\s+/)` word count exceeds 5000 the diff is skipped and the edited
text is returned as a single escaped run with `changes: 0`. -/
def generateTrackedChangesP14 (original edited : String) : Option (List Node × Nat) :=
  if (jsSplitWs original).length > 5000 then some ([Node.run edited], 0)
  else WordDiff.generate (jsSplitWs original) (jsSplitWs edited)

namespace Route

/-- The bounded inner lookahead `while` of `generateTrackedChanges`
(src/app/api/edit/route.ts lines 249-257): advance both indices while the
current words mismatch and both are in range, up to `maxLookahead = 10`
steps.  `budget` is `maxLookahead - lookahead`. -/
def lookahead (w1 w2 : List String) : Nat → Nat → Nat → Nat × Nat
  | 0, i, j => (i, j)
  | budget + 1, i, j =>
    if i < w1.length ∧ j < w2.length ∧ w1.getD i "" ≠ w2.getD j "" then
      lookahead w1 w2 budget (if i < w1.length then i + 1 else i)
        (if j < w2.length then j + 1 else j)
    else (i, j)

/-- The main loop of `generateTrackedChanges` (src/app/api/edit/route.ts
lines 238-275).  After the lookahead, if it stopped on an aligned match
the source steps both indices back by one (`i--; j--;`, line 261) before
slicing out the deleted/inserted words.  The recursion continues at the
stepped-back indices, exactly as the source's `while` does. -/
def loop (w1 w2 : List String) : Nat → Nat → Nat → List Node → Nat →
    Option (List Node × Nat)
  | 0, _, _, _, _ => none
  | fuel + 1, i, j, acc, changes =>
    if i < w1.length ∨ j < w2.length then
      if i < w1.length ∧ j < w2.length ∧ w1.getD i "" = w2.getD j "" then
        loop w1 w2 fuel (i + 1) (j + 1) (acc ++ [Node.run (w1.getD i "")]) changes
      else
        let p := lookahead w1 w2 10 i j
        let q := if p.1 < w1.length ∧ p.2 < w2.length ∧ w1.getD p.1 "" = w2.getD p.2 ""
          then (p.1 - 1, p.2 - 1) else p
        let deleted := " ".intercalate ((w1.drop i).take (q.1 - i))
        let inserted := " ".intercalate ((w2.drop j).take (q.2 - j))
        if deleted ≠ "" ∨ inserted ≠ "" then
          loop w1 w2 fuel q.1 q.2 (acc ++ [Node.group (WordDiff.groupOf deleted inserted)]) (changes + 1)
        else
          loop w1 w2 fuel q.1 q.2 acc changes
    else some (acc, changes)

/-- `generateTrackedChanges(original, edited)` from
src/app/api/edit/route.ts (lines 231-281): words are `split(/\s+/)`
filtered to non-empty (`.filter(w => w)`).  The fuel is left as a
parameter so that non-termination of the source loop can be stated as
`∀ fuel, ... = none`. -/
def generateTrackedChanges (fuel : Nat) (original edited : String) :
    Option (List Node × Nat) :=
  loop ((jsSplitWs original).filter (fun w => w != ""))
    ((jsSplitWs edited).filter (fun w => w != "")) fuel 0 0 [] 0

end Route

/-- Whether a diff part is an Equal part (`!part.added && !part.removed`). -/
def DPart.isEqual : DPart → Bool
  | DPart.equal _ => true
  | _ => false

/-- The group child emitted for one non-Equal diff part
(`groupContent += <del>/<ins>`). -/
def DPart.piece : DPart → GNode
  | DPart.del s => GNode.del s
  | DPart.ins s => GNode.ins s
  | DPart.equal s => GNode.txt s

/-- Whether the *next* diff part ends the current change group in the
worker formatter: `const next = diffs[i+1]; if (!next || (!next.added &&
!next.removed)) flushGroup(true)`. -/
def nextEndsGroup : List DPart → Bool
  | [] => true
  | p :: _ => p.isEqual

/-- The diff-to-HTML formatting loop of the worker
(src/unnamed/part_012, DIFF_WORKER_CODE lines 41-65) and of
`generateDiffHtmlDirect` (same file, lines 194-218 — identical logic):
Equal parts are emitted as plain runs (flushing any pending group content
*outside* a group span, the source's `flushGroup(false)`); a non-Equal
part is appended to the pending group content `gc`, which is flushed as
one change-group span when the next part is Equal or absent. -/
def formatWorker : List DPart → List GNode → List Node
  | [], gc => if gc = [] then [] else [Node.group gc]
  | DPart.equal s :: rest, gc =>
    (if gc = [] then [] else [Node.bare gc]) ++ Node.run s :: formatWorker rest []
  | DPart.del s :: rest, gc =>
    if nextEndsGroup rest then Node.group (gc ++ [GNode.del s]) :: formatWorker rest []
    else formatWorker rest (gc ++ [GNode.del s])
  | DPart.ins s :: rest, gc =>
    if nextEndsGroup rest then Node.group (gc ++ [GNode.ins s]) :: formatWorker rest []
    else formatWorker rest (gc ++ [GNode.ins s])

/-- Reference formatting by the bundling rule of spec §4.2: Equal parts
become runs, and each maximal run of consecutive non-Equal parts becomes
exactly one change group holding its parts' pieces in order. -/
def consGroup (p : GNode) : List Node → List Node
  | Node.group g :: t => Node.group (p :: g) :: t
  | ns => Node.group [p] :: ns

/-- See `consGroup`: the specification-side formatter. -/
def refFormat : List DPart → List Node
  | [] => []
  | DPart.equal s :: rest => Node.run s :: refFormat rest
  | DPart.del s :: rest => consGroup (GNode.del s) (refFormat rest)
  | DPart.ins s :: rest => consGroup (GNode.ins s) (refFormat rest)

/-- `areWordsSimilar` inner character loop (src/app/edit-tracked/page.tsx
lines 77-87): fuzzy common-character count with one-character lookahead
on either side.  Each iteration advances `i` or `j`, so fuel
`w1.length + w2.length` suffices. -/
def simLoop (w1 w2 : List Char) : Nat → Nat → Nat → Nat → Nat
  | 0, _, _, common => common
  | fuel + 1, i, j, common =>
    if i < w1.length ∧ j < w2.length then
      if w1.getD i ' ' = w2.getD j ' ' then simLoop w1 w2 fuel (i + 1) (j + 1) (common + 1)
      else if i < w1.length - 1 ∧ w1.getD (i + 1) ' ' = w2.getD j ' ' then
        simLoop w1 w2 fuel (i + 1) j common
      else if j < w2.length - 1 ∧ w1.getD i ' ' = w2.getD (j + 1) ' ' then
        simLoop w1 w2 fuel i (j + 1) common
      else simLoop w1 w2 fuel (i + 1) (j + 1) common
    else common

/-- `areWordsSimilar(word1, word2)` (src/app/edit-tracked/page.tsx lines
73-88).  The source compares IEEE doubles (`lenDiff > max * 0.4`,
`common / max >= 0.6`); both comparisons are embedded exactly over the
rationals by cross-multiplication (`10 * lenDiff > 4 * max`,
`10 * common ≥ 6 * max`), which agrees with the double arithmetic for
all inputs appearing in the claims (the ratios involved are far from the
thresholds). -/
def areWordsSimilar (word1 word2 : String) : Bool :=
  if word1 = "" ∨ word2 = "" then false
  else
    let l1 := word1.data.length
    let l2 := word2.data.length
    let maxLen := max l1 l2
    let lenDiff := (l1 - l2) + (l2 - l1)
    if 10 * lenDiff > 4 * maxLen then false
    else
      let common := simLoop word1.data word2.data (l1 + l2 + 1) 0 0 0
      10 * common ≥ 6 * maxLen

/-- Value of the head of the remaining parts when it is an Insert
(`next.added` with its text). -/
def headInsValue : List DPart → Option String
  | DPart.ins v :: _ => some v
  | _ => none

/-- Whether the head of the remaining parts is a Delete (`next.removed`). -/
def headIsDel : List DPart → Bool
  | DPart.del _ :: _ => true
  | _ => false

/-- Whether page.tsx's formatter flushes the pending group after a Delete
part `s` given the remaining parts (flush when next is Equal or absent,
or a dissimilar Insert). -/
def pageDelFlush (s : String) (rest : List DPart) : Bool :=
  if nextEndsGroup rest then true
  else
    match headInsValue rest with
    | some v => !areWordsSimilar (jsTrim s) (jsTrim v)
    | none => false

/-- The diff-to-HTML formatting loop of `generateDiffHtml`
(src/app/edit-tracked/page.tsx lines 90-121).  It differs from the worker
formatter in when it flushes the pending group: in addition to flushing
before an Equal part or at the end, it flushes after an Insert followed
by a Delete, and after a Delete followed by an Insert whose trimmed texts
are not `areWordsSimilar` — so a "replace" of dissimilar words becomes
two separate change groups.  The flush decision is factored into
`pageDelFlush`/`headIsDel`. -/
def formatPage : List DPart → List GNode → List Node
  | [], gc => if gc = [] then [] else [Node.group gc]
  | DPart.equal s :: rest, gc =>
    (if gc = [] then [] else [Node.bare gc]) ++ Node.run s :: formatPage rest []
  | DPart.del s :: rest, gc =>
    if pageDelFlush s rest then Node.group (gc ++ [GNode.del s]) :: formatPage rest []
    else formatPage rest (gc ++ [GNode.del s])
  | DPart.ins s :: rest, gc =>
    if nextEndsGroup rest || headIsDel rest then
      Node.group (gc ++ [GNode.ins s]) :: formatPage rest []
    else formatPage rest (gc ++ [GNode.ins s])

namespace P12

/-- `applyChange(group, accept)` from src/unnamed/part_012 (lines
334-364).  The source clones the group element, removes the rejected
side's elements from the clone, unwraps the kept side's elements into
loose text nodes (`insertBefore(firstChild, ...)`; an element with empty
text has no child node to move), and then *replaces the group with the
clone* — the clone still carries the `change-group` class, so the
wrapper span stays in the document.  The group is located inside the
document as `pre ++ [group g] ++ suf`. -/
def applyChange (accept : Bool) (pre : List Node) (g : List GNode) (suf : List Node) :
    List Node :=
  let cloneChildren := g.flatMap fun x =>
    match x, accept with
    | GNode.del _, true => []
    | GNode.del s, false => if s = "" then [] else [GNode.txt s]
    | GNode.ins s, true => if s = "" then [] else [GNode.txt s]
    | GNode.ins _, false => []
    | GNode.txt s, _ => [GNode.txt s]
  pre ++ [Node.group cloneChildren] ++ suf

/-- `insertTrackedInsertion(text)` from src/unnamed/part_012 (lines
412-436) at a collapsed caret, the caret being modelled as the split of
the document into `pre`/`suf`: empty text is ignored (`if (!text ...)
return`); otherwise a new change-group span holding `<ins>text</ins>` is
inserted at the caret. -/
def insertTrackedInsertion (pre suf : List Node) (text : String) : List Node :=
  if text = "" then pre ++ suf
  else pre ++ [Node.group [GNode.ins text]] ++ suf

/-- `handleDeletion` from src/unnamed/part_012 (lines 384-409) on a
selection of text `sel` (the selection being modelled as the split
`pre ++ [run sel] ++ suf`): when the selected text trims to empty the
handler returns without changing anything (and the key's default was
prevented, so nothing is erased either); otherwise the selection's
contents are replaced by a new change-group span holding
`<del>sel</del>`. -/
def handleDeletion (pre : List Node) (sel : String) (suf : List Node) : List Node :=
  if jsTrim sel = "" then pre ++ [Node.run sel] ++ suf
  else pre ++ [Node.group [GNode.del sel]] ++ suf

end P12

namespace Page

/-- The text children left inside the group by `applyChange`'s
unwrapping phase (src/app/edit-tracked/page.tsx lines 161-188): on
accept, `ins` elements are unwrapped into their text and `del` elements
removed; on reject the mirror image; loose text children stay.  An
element with empty text contributes no text node. -/
def keptTexts (accept : Bool) : List GNode → List String
  | [] => []
  | GNode.del s :: t =>
    (if accept then [] else if s = "" then [] else [s]) ++ keptTexts accept t
  | GNode.ins s :: t =>
    (if accept then (if s = "" then [] else [s]) else []) ++ keptTexts accept t
  | GNode.txt s :: t => (if s = "" then [] else [s]) ++ keptTexts accept t

/-- `applyChange(group, accept)` from src/app/edit-tracked/page.tsx
(lines 161-199): after unwrapping the kept side and removing the other,
the group element itself is unwrapped (`insertBefore(firstChild, group)`)
and removed — when no children remain it is simply removed — so the kept
texts end up as plain top-level text at the group's position. -/
def applyChange (accept : Bool) (pre : List Node) (g : List GNode) (suf : List Node) :
    List Node :=
  pre ++ (keptTexts accept g).map Node.run ++ suf

end Page

/-- JavaScript's `a || b` on strings (first operand when truthy, i.e.
non-empty, else the second). -/
def jsOr (a b : String) : String :=
  if a = "" then b else a

/-- `extractCleanTextFromTrackedDOM()` from src/components/EditorUI.tsx
(lines 92-109): remove `.change-action` and `del`, replace each `ins`
with its text, unwrap `.change-group` wrappers, then return
`clone.textContent?.trim() || editedText || ''`.  The pre-trim
extraction is `cleanCore`; `editedText` is the component's previously
stored edited text. -/
def extractCleanTextFromTrackedDOM (doc : List Node) (editedText : String) : String :=
  jsOr (jsOr (jsTrim (cleanCore doc)) editedText) ""

namespace P12

/-- A message posted to the diff worker
(src/unnamed/part_012 lines 160-164): plain strings plus the request
identifier. -/
structure WorkerMsg where
  original : String
  edited : String
  requestId : Nat
deriving DecidableEq

/-- A message posted back by the worker (lines 67-70): the request
identifier it was given and the produced tracked document (the `html`
payload, parsed). -/
structure Reply where
  requestId : Nat
  html : List Node
deriving DecidableEq

/-- The scheduler state of the edit-tracked page (src/unnamed/part_012):
`requestId` is `requestIdRef.current`, `rendered` is `trackedHtmlState`
(parsed), `pending` are the worker messages posted and not yet handled. -/
structure SchedState where
  requestId : Nat
  rendered : Option (List Node)
  pending : List WorkerMsg
deriving DecidableEq

/-- `generateDiffHtmlDirect(original, edited)` (src/unnamed/part_012
lines 172-224) in the non-throwing, library-present case: format the
word-diff of the two texts.  The diff library (`window.Diff`, loaded from
a CDN — external to this repository) is passed as the function `dw`. -/
def generateDiffHtmlDirect (dw : String → String → List DPart) (original edited : String) :
    List Node :=
  formatWorker (dw original edited) []

/-- `generateTrackedHtml(original, edited)` (src/unnamed/part_012 lines
156-169): documents over the 5000-character `VIRTUALIZATION_THRESHOLD`
increment the request identifier and post a worker message carrying it;
smaller documents are diffed synchronously and rendered at once, without
touching the request identifier. -/
def generateTrackedHtml (dw : String → String → List DPart) (s : SchedState)
    (original edited : String) : SchedState :=
  if original.length + edited.length > 5000 then
    { requestId := s.requestId + 1
      rendered := s.rendered
      pending := s.pending ++ [⟨original, edited, s.requestId + 1⟩] }
  else
    { s with rendered := some (generateDiffHtmlDirect dw original edited) }

/-- The successful computation of the worker for one message
(src/unnamed/part_012, DIFF_WORKER_CODE lines 20-70): diff, format,
reply with the same request identifier. -/
def workerReply (dw : String → String → List DPart) (m : WorkerMsg) : Reply :=
  ⟨m.requestId, formatWorker (dw m.original m.edited) []⟩

/-- The worker's full message handler including its `try/catch`
(DIFF_WORKER_CODE lines 20-78): the outcome of `Diff.diffWords` is passed
as an `Except`; on failure the reply carries `escapeHtml(edited)` — the
entire edited text as a single plain run with no change groups — under
the same request identifier. -/
def workerHandle (outcome : Except String (List DPart)) (edited : String)
    (requestId : Nat) : Reply :=
  match outcome with
  | Except.ok parts => ⟨requestId, formatWorker parts []⟩
  | Except.error _ => ⟨requestId, [Node.run edited]⟩

/-- `workerRef.current.onmessage` (src/unnamed/part_012 lines 138-144):
a reply is applied only when its request identifier equals the
latest-issued one (`requestId === requestIdRef.current`); otherwise it is
dropped. -/
def onmessage (s : SchedState) (r : Reply) : SchedState :=
  if r.requestId = s.requestId then { s with rendered := some r.html } else s

end P12

/-- Modelled from the spec: the word-diff `Diff.diffWords` of the
external diff library (loaded from a CDN script, not part of this
repository's sources).  Spec §4.1: for identical texts the script is a
single Equal operation; for completely disjoint texts it is one Delete
followed by one Insert.  This model is only ever instantiated at
identical or completely disjoint pairs. -/
def specDiffWords (original edited : String) : List DPart :=
  if original = edited then [DPart.equal original]
  else [DPart.del original, DPart.ins edited]

/-- Length of a longest common subsequence of two token sequences
(specification-side notion used by the claim that the diff computes an
LCS alignment).  Fuelled. -/
def lcsLenF : Nat → List String → List String → Nat
  | 0, _, _ => 0
  | _, [], _ => 0
  | _, _, [] => 0
  | fuel + 1, a :: as, b :: bs =>
    if a = b then 1 + lcsLenF fuel as bs
    else max (lcsLenF fuel as (b :: bs)) (lcsLenF fuel (a :: as) bs)

/-- See `lcsLenF`; the fuel `l1.length + l2.length` dominates the
recursion depth. -/
def lcsLen (l1 l2 : List String) : Nat :=
  lcsLenF (l1.length + l2.length) l1 l2

/-- Concatenation of a list of strings. -/
def strConcat : List String → String
  | [] => ""
  | s :: t => s ++ strConcat t

/-- Merging pending group content into the front of a formatted tail:
used to relate the worker formatter's accumulator to `refFormat`. -/
def mergeInto (gc : List GNode) : List Node → List Node
  | Node.group g :: t => Node.group (gc ++ g) :: t
  | ns => if gc = [] then ns else Node.group gc :: ns

/-- `textContent` of the HTML built by part_013/part_014's
`generateTrackedChanges`: the emitted pieces are joined with single
spaces (`html.join(' ')`, part_013 line 352). -/
def renderJoinText (ns : List Node) : String :=
  " ".intercalate (ns.map fun n =>
    match n with
    | Node.run s => s
    | Node.group g => groupText g
    | Node.bare g => groupText g)

/-- Characters of a text of `n + 1` words "a" separated by single
spaces. -/
def repWords : Nat → List Char
  | 0 => ['a']
  | n + 1 => 'a' :: ' ' :: repWords n

/-- A concrete original text of 5001 whitespace-separated words. -/
def bigOriginal : String :=
  String.mk (repWords 5000)

/-- A concrete 5001-character text (forces the worker path of the
scheduler). -/
def bigA : String :=
  String.mk (List.replicate 5001 'a')

/-- A second concrete 5001-character text. -/
def bigC : String :=
  String.mk (List.replicate 5001 'c')

theorem countGroups_append (a b : List Node) :
    countGroups (a ++ b) = countGroups a + countGroups b := by
  induction a with
  | nil => simp [countGroups]
  | cons x t ih => cases x <;> simp [countGroups, ih] <;> omega

theorem cleanPage_append (a b : List Node) :
    cleanPage (a ++ b) = cleanPage a ++ cleanPage b := by
  induction a with
  | nil => simp [cleanPage]
  | cons x t ih =>
    cases x <;> simp [cleanPage, ih, String.append_assoc]

theorem cleanCore_append (a b : List Node) :
    cleanCore (a ++ b) = cleanCore a ++ cleanCore b := by
  induction a with
  | nil => simp [cleanCore]
  | cons x t ih =>
    cases x <;> simp [cleanCore, ih, String.append_assoc]

theorem fullText_append (a b : List Node) :
    fullText (a ++ b) = fullText a ++ fullText b := by
  induction a with
  | nil => simp [fullText]
  | cons x t ih =>
    cases x <;> simp [fullText, ih, String.append_assoc]

theorem countGroups_map_run (l : List String) : countGroups (l.map Node.run) = 0 := by
  induction l with
  | nil => rfl
  | cons s t ih => simpa [countGroups] using ih

theorem cleanPage_map_run (l : List String) : cleanPage (l.map Node.run) = strConcat l := by
  induction l with
  | nil => rfl
  | cons s t ih => simp [cleanPage, strConcat, ih]

theorem strConcat_append (a b : List String) :
    strConcat (a ++ b) = strConcat a ++ strConcat b := by
  induction a with
  | nil => simp [strConcat]
  | cons s t ih => simp [strConcat, ih, String.append_assoc]

theorem keptTexts_true_concat (g : List GNode) (h : hasTxt g = false) :
    strConcat (Page.keptTexts true g) = insertedTextG g := by
  induction g with
  | nil => rfl
  | cons x t ih =>
    cases x with
    | del s => simpa [Page.keptTexts, insertedTextG, hasTxt] using ih (by simpa [hasTxt] using h)
    | ins s =>
      rcases eq_or_ne s "" with rfl | hs
      · simpa [Page.keptTexts, insertedTextG, hasTxt] using ih (by simpa [hasTxt] using h)
      · simp [Page.keptTexts, insertedTextG, hs, strConcat_append, strConcat,
          ih (by simpa [hasTxt] using h)]
    | txt s => simp [hasTxt] at h

theorem keptTexts_false_concat (g : List GNode) (h : hasTxt g = false) :
    strConcat (Page.keptTexts false g) = deletedTextG g := by
  induction g with
  | nil => rfl
  | cons x t ih =>
    cases x with
    | ins s => simpa [Page.keptTexts, deletedTextG, hasTxt] using ih (by simpa [hasTxt] using h)
    | del s =>
      rcases eq_or_ne s "" with rfl | hs
      · simpa [Page.keptTexts, deletedTextG, hasTxt] using ih (by simpa [hasTxt] using h)
      · simp [Page.keptTexts, deletedTextG, hs, strConcat_append, strConcat,
          ih (by simpa [hasTxt] using h)]
    | txt s => simp [hasTxt] at h

theorem mergeInto_nil (ns : List Node) : mergeInto [] ns = ns := by
  cases ns with
  | nil => rfl
  | cons x t => cases x <;> simp [mergeInto]

theorem refFormat_group_head (ops : List DPart) (h : nextEndsGroup ops = false) :
    ∃ g t, refFormat ops = Node.group g :: t := by
  cases ops with
  | nil => simp [nextEndsGroup] at h
  | cons p rest =>
    cases p with
    | equal s => simp [nextEndsGroup, DPart.isEqual] at h
    | del s =>
      cases hr : refFormat rest with
      | nil => exact ⟨[GNode.del s], [], by simp [refFormat, hr, consGroup]⟩
      | cons y t =>
        cases y with
        | group g => exact ⟨GNode.del s :: g, t, by simp [refFormat, hr, consGroup]⟩
        | run v => exact ⟨[GNode.del s], Node.run v :: t, by simp [refFormat, hr, consGroup]⟩
        | bare g => exact ⟨[GNode.del s], Node.bare g :: t, by simp [refFormat, hr, consGroup]⟩
    | ins s =>
      cases hr : refFormat rest with
      | nil => exact ⟨[GNode.ins s], [], by simp [refFormat, hr, consGroup]⟩
      | cons y t =>
        cases y with
        | group g => exact ⟨GNode.ins s :: g, t, by simp [refFormat, hr, consGroup]⟩
        | run v => exact ⟨[GNode.ins s], Node.run v :: t, by simp [refFormat, hr, consGroup]⟩
        | bare g => exact ⟨[GNode.ins s], Node.bare g :: t, by simp [refFormat, hr, consGroup]⟩

theorem refFormat_ends_head (ops : List DPart) (h : nextEndsGroup ops = true) :
    (∀ g t, refFormat ops ≠ Node.group g :: t) := by
  intro g t
  cases ops with
  | nil => simp [refFormat]
  | cons p rest =>
    cases p with
    | equal s => simp [refFormat]
    | del s => simp [nextEndsGroup, DPart.isEqual] at h
    | ins s => simp [nextEndsGroup, DPart.isEqual] at h

theorem formatWorker_eq_mergeInto (ops : List DPart) :
    ∀ gc : List GNode, (gc = [] ∨ nextEndsGroup ops = false) →
      formatWorker ops gc = mergeInto gc (refFormat ops) := by
  induction ops with
  | nil =>
    intro gc h
    rcases h with rfl | h
    · simp [formatWorker, refFormat, mergeInto_nil]
    · simp [nextEndsGroup] at h
  | cons p rest ih =>
    intro gc h
    cases p with
    | equal s =>
      rcases h with rfl | h
      · simp [formatWorker, refFormat, mergeInto_nil, ih [] (Or.inl rfl)]
      · simp [nextEndsGroup, DPart.isEqual] at h
    | del s =>
      by_cases hr : nextEndsGroup rest = true
      · have hcons : consGroup (GNode.del s) (refFormat rest) =
            Node.group [GNode.del s] :: refFormat rest := by
          cases hf : refFormat rest with
          | nil => simp [consGroup]
          | cons y t =>
            cases y with
            | group g => exact absurd hf (by simpa using refFormat_ends_head rest hr g t)
            | run v => simp [consGroup]
            | bare g => simp [consGroup]
        have h1 : formatWorker rest [] = refFormat rest := by
          rw [ih [] (Or.inl rfl), mergeInto_nil]
        simp only [formatWorker, hr, if_true, refFormat, hcons, h1]
        simp [mergeInto]
      · have hr' : nextEndsGroup rest = false := by simpa using hr
        have h1 := ih (gc ++ [GNode.del s]) (Or.inr hr')
        obtain ⟨g0, t0, hg⟩ := refFormat_group_head rest hr'
        rw [hg] at h1
        simp only [formatWorker, hr', Bool.false_eq_true, if_false, refFormat, hg, consGroup, h1]
        simp [mergeInto]
    | ins s =>
      by_cases hr : nextEndsGroup rest = true
      · have hcons : consGroup (GNode.ins s) (refFormat rest) =
            Node.group [GNode.ins s] :: refFormat rest := by
          cases hf : refFormat rest with
          | nil => simp [consGroup]
          | cons y t =>
            cases y with
            | group g => exact absurd hf (by simpa using refFormat_ends_head rest hr g t)
            | run v => simp [consGroup]
            | bare g => simp [consGroup]
        have h1 : formatWorker rest [] = refFormat rest := by
          rw [ih [] (Or.inl rfl), mergeInto_nil]
        simp only [formatWorker, hr, if_true, refFormat, hcons, h1]
        simp [mergeInto]
      · have hr' : nextEndsGroup rest = false := by simpa using hr
        have h1 := ih (gc ++ [GNode.ins s]) (Or.inr hr')
        obtain ⟨g0, t0, hg⟩ := refFormat_group_head rest hr'
        rw [hg] at h1
        simp only [formatWorker, hr', Bool.false_eq_true, if_false, refFormat, hg, consGroup, h1]
        simp [mergeInto]

theorem formatWorker_eq_refFormat (ops : List DPart) :
    formatWorker ops [] = refFormat ops := by
  rw [formatWorker_eq_mergeInto ops [] (Or.inl rfl), mergeInto_nil]

theorem wordDiff_loop_identical (n : Nat) :
    ∀ (ws : List String) (i e : Nat) (acc : List Node) (c : Nat),
      ws.length = i + n →
      WordDiff.loop ws ws (e + n + 1) i i acc c =
        some (acc ++ (ws.drop i).map Node.run, c) := by
  induction n with
  | zero =>
    intro ws i e acc c hlen
    have hi : ¬ (i < ws.length ∨ i < ws.length) := by omega
    simp only [WordDiff.loop, hi, if_false]
    simp [List.drop_eq_nil_of_le (by omega : ws.length ≤ i)]
  | succ n ih =>
    intro ws i e acc c hlen
    have hi : i < ws.length := by omega
    show WordDiff.loop ws ws (e + n + 1 + 1) i i acc c = _
    rw [WordDiff.loop]
    rw [if_pos (Or.inl hi)]
    rw [if_pos (⟨hi, hi, rfl⟩ : i < ws.length ∧ i < ws.length ∧ ws.getD i "" = ws.getD i "")]
    rw [ih ws (i + 1) e (acc ++ [Node.run (ws.getD i "")]) c (by omega)]
    have hdrop : ws.drop i = ws.getD i "" :: ws.drop (i + 1) := by
      rw [List.getD_eq_getElem ws "" hi]
      exact List.drop_eq_getElem_cons hi
    rw [hdrop]
    simp

theorem wordDiff_generate_identical (ws : List String) :
    WordDiff.generate ws ws = some (ws.map Node.run, 0) := by
  have h := wordDiff_loop_identical ws.length ws 0 ws.length [] 0 (by omega)
  simpa [WordDiff.generate] using h

theorem route_loop_stuck (f : Nat) :
    ∀ (acc : List Node) (c : Nat), Route.loop ["a"] ["a", "b"] f 1 1 acc c = none := by
  induction f with
  | zero => intro acc c; rfl
  | succ f ih =>
    intro acc c
    have h : Route.loop ["a"] ["a", "b"] (f + 1) 1 1 acc c =
        Route.loop ["a"] ["a", "b"] f 1 1 acc c := rfl
    rw [h, ih]

theorem map_text_run (ws : List String) :
    (ws.map Node.run).map (fun n =>
      match n with
      | Node.run s => s
      | Node.group g => groupText g
      | Node.bare g => groupText g) = ws := by
  induction ws with
  | nil => rfl
  | cons s t ih => simp [ih]

theorem renderJoinText_map_run (ws : List String) :
    renderJoinText (ws.map Node.run) = " ".intercalate ws := by
  rw [renderJoinText, map_text_run]

theorem splitGo_skip_eq (n : Nat) :
    splitGo (repWords n) true [] = splitGo (repWords n) false [] := by
  cases n with
  | zero => rfl
  | succ n => rfl

theorem splitGo_repWords : ∀ n : Nat,
    splitGo (repWords n) false [] = List.replicate (n + 1) "a" := by
  intro n
  induction n with
  | zero => decide
  | succ n ih =>
    show splitGo ('a' :: ' ' :: repWords n) false [] = _
    rw [show splitGo ('a' :: ' ' :: repWords n) false [] =
        String.mk ['a'] :: splitGo (repWords n) true [] from rfl]
    rw [splitGo_skip_eq, ih]
    rfl

theorem bigOriginal_words : jsSplitWs bigOriginal = List.replicate 5001 "a" := by
  rw [jsSplitWs, bigOriginal]
  exact splitGo_repWords 5000

theorem bigA_length : bigA.length = 5001 := by
  show (List.replicate 5001 'a').length = 5001
  exact List.length_replicate 5001 'a'

theorem bigC_length : bigC.length = 5001 := by
  show (List.replicate 5001 'c').length = 5001
  exact List.length_replicate 5001 'c'

theorem bigA_ne (s : String) (h : s.length ≠ 5001) : bigA ≠ s := by
  intro he
  exact h (by rw [← he, bigA_length])

theorem formatWorker_del_ins (a b : String) :
    formatWorker [DPart.del a, DPart.ins b] [] = [Node.group [GNode.del a, GNode.ins b]] := by
  simp [formatWorker, nextEndsGroup, DPart.isEqual]

/-- C1: the claimed round-trip — formatting the word diff of `(A, B)` and
extracting the clean text yields `B` for all `A`, `B` — is the spec's
clear intent, but the repository's own diff generator
(`generateTrackedChanges`, src/app/api/edit/route.ts) fails it by never
terminating: at `original = "a"`, `edited = "a b"` the mismatch branch
advances neither index (the lookahead's guard requires both indices in
range, and the `i--; j--` step-back re-enters the same state), so for
every fuel the loop yields no tracked document at all. -/
theorem C1_route_generate_diverges :
    ∀ fuel : Nat, Route.generateTrackedChanges fuel "a" "a b" = none := by
  intro fuel
  cases fuel with
  | zero => rfl
  | succ f =>
    have h : Route.generateTrackedChanges (f + 1) "a" "a b" =
        Route.loop ["a"] ["a", "b"] f 1 1 [Node.run "a"] 0 := rfl
    rw [h, route_loop_stuck]

/-- C2 counterexample: `applyChange` of src/unnamed/part_012 does *not*
replace an accepted ChangeGroup by its insertedText as plain text — it
replaces the group element by a clone that still carries the
`change-group` class, so the wrapper (and a change-group count of 1)
survives; and a group whose both sides become empty is kept as an empty
wrapper rather than removed. -/
theorem C2_counterexample_p12_wrapper_kept :
    P12.applyChange true [Node.run "A "] [GNode.del "x", GNode.ins "y"] [Node.run " B"] =
      [Node.run "A ", Node.group [GNode.txt "y"], Node.run " B"]
    ∧ countGroups (P12.applyChange true [Node.run "A "] [GNode.del "x", GNode.ins "y"]
        [Node.run " B"]) = 1
    ∧ P12.applyChange true [Node.run "A "] [GNode.del "x", GNode.ins "y"] [Node.run " B"] ≠
        [Node.run "A ", Node.run "y", Node.run " B"]
    ∧ P12.applyChange false [Node.run "A "] [GNode.ins "y"] [Node.run " B"] =
        [Node.run "A ", Node.group [], Node.run " B"]
    ∧ countGroups (P12.applyChange false [Node.run "A "] [GNode.ins "y"] [Node.run " B"]) = 1 := by
  decide

/-- C2 (amended): in page.tsx's `applyChange` the claim holds — accepting
a ChangeGroup `g` replaces it by its insertedText as plain text (reject:
deletedText), the group wrapper disappears (when both sides are empty
nothing at all is left), and the extracted clean text is the clean prefix
followed by exactly the chosen side's text followed by the clean suffix;
part_012's `applyChange` instead keeps the change-group wrapper around
the kept text. -/
theorem C2_page_applyChange_correct (accept : Bool) (pre suf : List Node) (g : List GNode)
    (h : hasTxt g = false) :
    Page.applyChange accept pre g suf =
      pre ++ (Page.keptTexts accept g).map Node.run ++ suf
    ∧ countGroups (Page.applyChange accept pre g suf) = countGroups pre + countGroups suf
    ∧ cleanPage (Page.applyChange true pre g suf) =
        cleanPage pre ++ insertedTextG g ++ cleanPage suf
    ∧ cleanPage (Page.applyChange false pre g suf) =
        cleanPage pre ++ deletedTextG g ++ cleanPage suf := by
  refine ⟨rfl, ?_, ?_, ?_⟩
  · simp [Page.applyChange, countGroups_append, countGroups_map_run]
  · rw [Page.applyChange, cleanPage_append, cleanPage_append, cleanPage_map_run,
      keptTexts_true_concat g h, String.append_assoc]
  · rw [Page.applyChange, cleanPage_append, cleanPage_append, cleanPage_map_run,
      keptTexts_false_concat g h, String.append_assoc]

/-- C2 witness: the amended theorem applied at a concrete document. -/
theorem C2_page_applyChange_witness :
    hasTxt [GNode.del "kno", GNode.ins "know"] = false ∧
    (Page.applyChange true [Node.run "I "] [GNode.del "kno", GNode.ins "know"]
        [Node.run " it"] =
      [Node.run "I "] ++
        (Page.keptTexts true [GNode.del "kno", GNode.ins "know"]).map Node.run ++
        [Node.run " it"]
    ∧ countGroups (Page.applyChange true [Node.run "I "]
        [GNode.del "kno", GNode.ins "know"] [Node.run " it"]) =
        countGroups [Node.run "I "] + countGroups [Node.run " it"]
    ∧ cleanPage (Page.applyChange true [Node.run "I "]
        [GNode.del "kno", GNode.ins "know"] [Node.run " it"]) =
        cleanPage [Node.run "I "] ++ insertedTextG [GNode.del "kno", GNode.ins "know"] ++
          cleanPage [Node.run " it"]
    ∧ cleanPage (Page.applyChange false [Node.run "I "]
        [GNode.del "kno", GNode.ins "know"] [Node.run " it"]) =
        cleanPage [Node.run "I "] ++ deletedTextG [GNode.del "kno", GNode.ins "know"] ++
          cleanPage [Node.run " it"]) :=
  ⟨by decide, C2_page_applyChange_correct true [Node.run "I "]
    [Node.run " it"] [GNode.del "kno", GNode.ins "know"] (by decide)⟩

/-- C3 counterexample: on the operation list the diff library produces
for the completely disjoint pair ("a b c", "x y z") — one Delete followed
by one Insert (spec §4.1) — page.tsx's formatter `generateDiffHtml`
yields *two* separate ChangeGroups, not one: its word-similarity
heuristic flushes the group between the dissimilar Delete and Insert. -/
theorem C3_counterexample_page_splits_replace :
    formatPage [DPart.del "a b c", DPart.ins "x y z"] [] =
      [Node.group [GNode.del "a b c"], Node.group [GNode.ins "x y z"]]
    ∧ countGroups (formatPage [DPart.del "a b c", DPart.ins "x y z"] []) = 2
    ∧ countGroups (formatPage [DPart.del "a b c", DPart.ins "x y z"] []) ≠ 1 := by
  decide

/-- C3 (amended): the worker formatter (src/unnamed/part_012,
DIFF_WORKER_CODE — the same loop as `generateDiffHtmlDirect`) does bundle
every maximal run of consecutive non-Equal operations into exactly one
ChangeGroup holding the Delete and Insert texts in order (it agrees with
the reference grouping `refFormat` on every operation list), and on the
disjoint example it yields exactly one group with deletedText "a b c" and
insertedText "x y z"; page.tsx's `generateDiffHtml`, however, splits a
Delete followed by a dissimilar Insert into two groups. -/
theorem C3_worker_bundles_maximal_runs :
    (∀ ops : List DPart, formatWorker ops [] = refFormat ops)
    ∧ formatWorker [DPart.del "a b c", DPart.ins "x y z"] [] =
        [Node.group [GNode.del "a b c", GNode.ins "x y z"]]
    ∧ countGroups (formatWorker [DPart.del "a b c", DPart.ins "x y z"] []) = 1
    ∧ deletedTextG [GNode.del "a b c", GNode.ins "x y z"] = "a b c"
    ∧ insertedTextG [GNode.del "a b c", GNode.ins "x y z"] = "x y z" :=
  ⟨formatWorker_eq_refFormat, by decide, by decide, by decide, by decide⟩

/-- C4 counterexample: the diff algorithm of
src/app/api/edit/route.ts/part_013 does not compute an LCS alignment: on
`original = "a b"`, `edited = "b a"` it emits a script with zero Equal
tokens although the longest common subsequence of the token sequences has
length 1 (an LCS alignment would keep "b" or "a" as an Equal run). -/
theorem C4_counterexample_not_lcs :
    (Route.generateTrackedChanges 9 "a b" "b a").map (fun r => equalTokens r.1) = some 0
    ∧ lcsLen ((jsSplitWs "a b").filter (fun w => w != ""))
        ((jsSplitWs "b a").filter (fun w => w != "")) = 1
    ∧ (Route.generateTrackedChanges 9 "a b" "b a").map (fun r => equalTokens r.1) ≠
        some (lcsLen ((jsSplitWs "a b").filter (fun w => w != ""))
          ((jsSplitWs "b a").filter (fun w => w != ""))) := by
  decide

/-- C4 (amended): the algorithm is a greedy two-pointer scan (on a
mismatch it skips ahead to the next aligned match), not an LCS alignment
and not a minimal edit script; the claimed consequence nevertheless
holds: for identical inputs every word matches, so the result consists
only of plain runs — zero ChangeGroups and a change count of 0 — in
particular for `diffWords("hello world", "hello world")`. -/
theorem C4_identical_zero_groups :
    (∀ original : String,
        (generateTrackedChangesP13 original original).map (fun r => countGroups r.1) = some 0
        ∧ (generateTrackedChangesP13 original original).map (fun r => r.2) = some 0)
    ∧ (Route.generateTrackedChanges 9 "hello world" "hello world").map
        (fun r => countGroups r.1) = some 0 := by
  constructor
  · intro original
    rw [generateTrackedChangesP13, wordDiff_generate_identical]
    refine ⟨?_, rfl⟩
    simp [countGroups_map_run]
  · decide

/-- C5 counterexample: re-joining the emitted operations' text does not
reproduce the original spacing: for the pair ("a  b", "a  b") — two
spaces — part_013's generator tokenizes with `split(/\s+/)` (discarding
the whitespace) and joins the emitted pieces with single spaces
(`html.join(' ')`), producing the text "a b". -/
theorem C5_counterexample_spacing_lost :
    (generateTrackedChangesP13 "a  b" "a  b").map (fun r => renderJoinText r.1) = some "a b"
    ∧ "a b" ≠ "a  b" := by
  decide

/-- C5 (amended): tokenization splits on whitespace runs and discards
them, and the generator joins the emitted texts with single spaces, so
spacing is normalized rather than preserved: for every identical input
pair the re-joined text is the original's `split(/\s+/)` tokens joined by
single spaces — which equals the original only when each of its
whitespace runs is a single space. -/
theorem C5_rejoin_normalizes_spacing :
    ∀ original : String,
      (generateTrackedChangesP13 original original).map (fun r => renderJoinText r.1) =
        some (" ".intercalate (jsSplitWs original)) := by
  intro original
  rw [generateTrackedChangesP13, wordDiff_generate_identical]
  show some (renderJoinText ((jsSplitWs original).map Node.run)) = _
  rw [renderJoinText_map_run]

/-- C6: raw edits while a document is loaded are recorded as new
ChangeGroups (src/unnamed/part_012): typing or pasting nonempty text `t`
at the caret inserts a new group whose insertedText is `t` and whose
deletedText is empty (no `del` side), and a backspace/delete whose
removed selection `sel` is not whitespace-only wraps `sel` in a new group
with deletedText `sel` — the removed text stays on the surface (the full
`textContent` is unchanged). -/
theorem C6_raw_edits_tracked (pre suf : List Node) (t sel : String)
    (ht : t ≠ "") (hs : jsTrim sel ≠ "") :
    P12.insertTrackedInsertion pre suf t = pre ++ [Node.group [GNode.ins t]] ++ suf
    ∧ insertedTextG [GNode.ins t] = t
    ∧ deletedTextG [GNode.ins t] = ""
    ∧ P12.handleDeletion pre sel suf = pre ++ [Node.group [GNode.del sel]] ++ suf
    ∧ deletedTextG [GNode.del sel] = sel
    ∧ insertedTextG [GNode.del sel] = ""
    ∧ fullText (P12.handleDeletion pre sel suf) = fullText (pre ++ [Node.run sel] ++ suf) := by
  refine ⟨?_, ?_, rfl, ?_, ?_, rfl, ?_⟩
  · rw [P12.insertTrackedInsertion, if_neg ht]
  · show t ++ "" = t
    exact String.append_empty t
  · rw [P12.handleDeletion, if_neg hs]
  · show sel ++ "" = sel
    exact String.append_empty sel
  · rw [P12.handleDeletion, if_neg hs]
    rw [fullText_append, fullText_append, fullText_append, fullText_append]
    simp [fullText, groupText, gnodeText, String.append_empty]

/-- C6 witness: the theorem applied at a concrete caret and selection. -/
theorem C6_raw_edits_tracked_witness :
    ("X" : String) ≠ "" ∧ jsTrim "bc" ≠ "" ∧
    (P12.insertTrackedInsertion [Node.run "A "] [Node.run " C"] "X" =
        [Node.run "A "] ++ [Node.group [GNode.ins "X"]] ++ [Node.run " C"]
    ∧ insertedTextG [GNode.ins "X"] = "X"
    ∧ deletedTextG [GNode.ins "X"] = ""
    ∧ P12.handleDeletion [Node.run "A "] "bc" [Node.run " C"] =
        [Node.run "A "] ++ [Node.group [GNode.del "bc"]] ++ [Node.run " C"]
    ∧ deletedTextG [GNode.del "bc"] = "bc"
    ∧ insertedTextG [GNode.del "bc"] = ""
    ∧ fullText (P12.handleDeletion [Node.run "A "] "bc" [Node.run " C"]) =
        fullText ([Node.run "A "] ++ [Node.run "bc"] ++ [Node.run " C"])) :=
  ⟨by decide, by decide,
    C6_raw_edits_tracked [Node.run "A "] [Node.run " C"] "X" "bc" (by decide) (by decide)⟩

/-- C7 counterexample: the request-identifier correlation does not make
the rendered document always reflect the latest dispatch.  Dispatching a
large pair (`bigA`, "b") posts worker request 1; a subsequent small pair
("x", "y") is computed synchronously without touching the request
identifier; when the worker's reply to request 1 then arrives, its
identifier still equals the latest-issued one, so the stale result
overwrites the newer synchronous render — the final surface shows the
diff of `bigA`/"b", not of "x"/"y". -/
theorem C7_counterexample_stale_overwrite :
    (P12.onmessage
        (P12.generateTrackedHtml specDiffWords
          (P12.generateTrackedHtml specDiffWords ⟨0, none, []⟩ bigA "b") "x" "y")
        (P12.workerReply specDiffWords ⟨bigA, "b", 1⟩)).rendered =
      some (formatWorker (specDiffWords bigA "b") [])
    ∧ (P12.generateTrackedHtml specDiffWords
        (P12.generateTrackedHtml specDiffWords ⟨0, none, []⟩ bigA "b") "x" "y").rendered =
      some (formatWorker (specDiffWords "x" "y") [])
    ∧ formatWorker (specDiffWords bigA "b") [] ≠ formatWorker (specDiffWords "x" "y") [] := by
  have hlen : bigA.length + ("b" : String).length > 5000 := by
    rw [bigA_length]
    decide
  have hsmall : ¬ ("x" : String).length + ("y" : String).length > 5000 := by decide
  have hAb : specDiffWords bigA "b" = [DPart.del bigA, DPart.ins "b"] := by
    rw [specDiffWords, if_neg (bigA_ne "b" (by decide))]
  have hxy : specDiffWords "x" "y" = [DPart.del "x", DPart.ins "y"] := by decide
  have hs1 : P12.generateTrackedHtml specDiffWords ⟨0, none, []⟩ bigA "b" =
      ⟨1, none, [⟨bigA, "b", 1⟩]⟩ := by
    rw [P12.generateTrackedHtml, if_pos hlen]
    rfl
  have hs2 : P12.generateTrackedHtml specDiffWords ⟨1, none, [⟨bigA, "b", 1⟩]⟩ "x" "y" =
      ⟨1, some (P12.generateDiffHtmlDirect specDiffWords "x" "y"), [⟨bigA, "b", 1⟩]⟩ := by
    rw [P12.generateTrackedHtml, if_neg hsmall]
  refine ⟨?_, ?_, ?_⟩
  · rw [hs1, hs2]
    rw [show P12.onmessage ⟨1, some (P12.generateDiffHtmlDirect specDiffWords "x" "y"),
        [⟨bigA, "b", 1⟩]⟩ (P12.workerReply specDiffWords ⟨bigA, "b", 1⟩) =
      ⟨1, some (formatWorker (specDiffWords bigA "b") []), [⟨bigA, "b", 1⟩]⟩ from by
        rw [P12.workerReply, P12.onmessage, if_pos rfl]]
  · rw [hs1, hs2]
    rfl
  · rw [hAb, hxy, formatWorker_del_ins, formatWorker_del_ins]
    intro h
    have h2 : GNode.del bigA = GNode.del "x" := by
      have := List.head_eq_of_cons_eq h
      have := Node.group.inj this
      exact List.head_eq_of_cons_eq this
    have h3 : bigA = "x" := GNode.del.inj h2
    exact bigA_ne "x" (by decide) h3

/-- C7 (amended): worker dispatches do carry a monotonically increasing
request identifier and a stale worker reply is discarded by the
identifier comparison: when *both* dispatches exceed the threshold (both
go through the worker), the rendered document reflects the second pair
regardless of the order in which the two replies arrive.  The guard is
bypassed only by the synchronous small-document path (see the
counterexample). -/
theorem C7_worker_requests_order_independent (dw : String → String → List DPart)
    (a1 b1 a2 b2 : String)
    (h1 : a1.length + b1.length > 5000) (h2 : a2.length + b2.length > 5000) :
    P12.generateTrackedHtml dw (P12.generateTrackedHtml dw ⟨0, none, []⟩ a1 b1) a2 b2 =
      ⟨2, none, [⟨a1, b1, 1⟩, ⟨a2, b2, 2⟩]⟩
    ∧ (P12.onmessage (P12.onmessage ⟨2, none, [⟨a1, b1, 1⟩, ⟨a2, b2, 2⟩]⟩
          (P12.workerReply dw ⟨a1, b1, 1⟩)) (P12.workerReply dw ⟨a2, b2, 2⟩)).rendered =
        some (formatWorker (dw a2 b2) [])
    ∧ (P12.onmessage (P12.onmessage ⟨2, none, [⟨a1, b1, 1⟩, ⟨a2, b2, 2⟩]⟩
          (P12.workerReply dw ⟨a2, b2, 2⟩)) (P12.workerReply dw ⟨a1, b1, 1⟩)).rendered =
        some (formatWorker (dw a2 b2) [])  := by
  have hs1 : P12.generateTrackedHtml dw ⟨0, none, []⟩ a1 b1 = ⟨1, none, [⟨a1, b1, 1⟩]⟩ := by
    rw [P12.generateTrackedHtml, if_pos h1]
    rfl
  have hs2 : P12.generateTrackedHtml dw ⟨1, none, [⟨a1, b1, 1⟩]⟩ a2 b2 =
      ⟨2, none, [⟨a1, b1, 1⟩, ⟨a2, b2, 2⟩]⟩ := by
    rw [P12.generateTrackedHtml, if_pos h2]
    rfl
  refine ⟨?_, ?_, ?_⟩
  · rw [hs1, hs2]
  · simp [P12.workerReply, P12.onmessage]
  · simp [P12.workerReply, P12.onmessage]

/-- C7 witness: the amended theorem applied at two concrete
over-threshold pairs. -/
theorem C7_worker_requests_witness :
    bigA.length + ("b" : String).length > 5000 ∧
    bigC.length + ("d" : String).length > 5000 ∧
    (P12.generateTrackedHtml specDiffWords
        (P12.generateTrackedHtml specDiffWords ⟨0, none, []⟩ bigA "b") bigC "d" =
      ⟨2, none, [⟨bigA, "b", 1⟩, ⟨bigC, "d", 2⟩]⟩
    ∧ (P12.onmessage (P12.onmessage ⟨2, none, [⟨bigA, "b", 1⟩, ⟨bigC, "d", 2⟩]⟩
          (P12.workerReply specDiffWords ⟨bigA, "b", 1⟩))
          (P12.workerReply specDiffWords ⟨bigC, "d", 2⟩)).rendered =
        some (formatWorker (specDiffWords bigC "d") [])
    ∧ (P12.onmessage (P12.onmessage ⟨2, none, [⟨bigA, "b", 1⟩, ⟨bigC, "d", 2⟩]⟩
          (P12.workerReply specDiffWords ⟨bigC, "d", 2⟩))
          (P12.workerReply specDiffWords ⟨bigA, "b", 1⟩)).rendered =
        some (formatWorker (specDiffWords bigC "d") [])) :=
  ⟨by rw [bigA_length]; decide, by rw [bigC_length]; decide,
    C7_worker_requests_order_independent specDiffWords bigA "b" bigC "d"
      (by rw [bigA_length]; decide) (by rw [bigC_length]; decide)⟩

/-- C8: when the worker's diff computation throws, the caller is not
failed and the surface is not left empty: the reply still carries the
request identifier (so the handler applies it as a normal result, not an
error), and its payload is the entire edited text as a single plain run —
no change groups, full text and clean text both equal to the edited
text. -/
theorem C8_failure_falls_back_to_plain_run (err edited : String) (rid : Nat)
    (s : P12.SchedState) (h : s.requestId = rid) :
    P12.workerHandle (Except.error err) edited rid = ⟨rid, [Node.run edited]⟩
    ∧ countGroups [Node.run edited] = 0
    ∧ fullText [Node.run edited] = edited
    ∧ cleanCore [Node.run edited] = edited
    ∧ (P12.onmessage s (P12.workerHandle (Except.error err) edited rid)).rendered =
        some [Node.run edited] := by
  refine ⟨rfl, rfl, ?_, ?_, ?_⟩
  · show edited ++ "" = edited
    exact String.append_empty edited
  · show edited ++ "" = edited
    exact String.append_empty edited
  · rw [P12.workerHandle, P12.onmessage]
    rw [if_pos h.symm]

/-- C8 witness: the theorem applied at a concrete failing computation. -/
theorem C8_failure_witness :
    (⟨3, none, []⟩ : P12.SchedState).requestId = 3 ∧
    (P12.workerHandle (Except.error "diff threw") "the edited text" 3 =
        ⟨3, [Node.run "the edited text"]⟩
    ∧ countGroups [Node.run "the edited text"] = 0
    ∧ fullText [Node.run "the edited text"] = "the edited text"
    ∧ cleanCore [Node.run "the edited text"] = "the edited text"
    ∧ (P12.onmessage ⟨3, none, []⟩
        (P12.workerHandle (Except.error "diff threw") "the edited text" 3)).rendered =
        some [Node.run "the edited text"]) :=
  ⟨rfl, C8_failure_falls_back_to_plain_run "diff threw" "the edited text" 3 ⟨3, none, []⟩ rfl⟩

/-- C9: `extractCleanTextFromTrackedDOM` trims the extracted text and,
whenever the extraction is empty or whitespace-only (for example when
every node of the tracked document has been deleted), returns the
previously stored edited text instead of the empty string; in every case
the result is either that fallback or the trimmed extraction. -/
theorem C9_extract_trims_and_falls_back (doc : List Node) (editedText : String)
    (h : jsTrim (cleanCore doc) = "") :
    extractCleanTextFromTrackedDOM doc editedText = editedText
    ∧ ∀ d : List Node,
        extractCleanTextFromTrackedDOM d editedText = editedText
        ∨ extractCleanTextFromTrackedDOM d editedText = jsTrim (cleanCore d) := by
  constructor
  · rw [extractCleanTextFromTrackedDOM, h]
    show jsOr (jsOr "" editedText) "" = editedText
    rw [show jsOr "" editedText = editedText from if_pos rfl]
    rw [jsOr]
    by_cases he : editedText = ""
    · rw [if_pos he, he]
    · rw [if_neg he]
  · intro d
    by_cases hd : jsTrim (cleanCore d) = ""
    · left
      rw [extractCleanTextFromTrackedDOM, hd]
      rw [show jsOr "" editedText = editedText from if_pos rfl]
      rw [jsOr]
      by_cases he : editedText = ""
      · rw [if_pos he, he]
      · rw [if_neg he]
    · right
      rw [extractCleanTextFromTrackedDOM]
      rw [show jsOr (jsTrim (cleanCore d)) editedText = jsTrim (cleanCore d) from if_neg hd]
      rw [show jsOr (jsTrim (cleanCore d)) "" = jsTrim (cleanCore d) from if_neg hd]

/-- C9 witness: a document whose only node is a fully deleted group
extracts to the previously stored edited text. -/
theorem C9_extract_witness :
    jsTrim (cleanCore [Node.group [GNode.del "all deleted"]]) = "" ∧
    (extractCleanTextFromTrackedDOM [Node.group [GNode.del "all deleted"]] "previous text" =
        "previous text"
    ∧ ∀ d : List Node,
        extractCleanTextFromTrackedDOM d "previous text" = "previous text"
        ∨ extractCleanTextFromTrackedDOM d "previous text" = jsTrim (cleanCore d)) :=
  ⟨by decide, C9_extract_trims_and_falls_back [Node.group [GNode.del "all deleted"]]
    "previous text" (by decide)⟩

/-- C10: when the original's `split(/\s+/)` word count exceeds 5000,
part_014's `generateTrackedChanges` skips diffing and returns the edited
text as one escaped plain run with a change count of 0 — such documents
contain no ChangeGroup. -/
theorem C10_large_documents_skip_diff (original edited : String)
    (h : (jsSplitWs original).length > 5000) :
    generateTrackedChangesP14 original edited = some ([Node.run edited], 0)
    ∧ (generateTrackedChangesP14 original edited).map (fun r => countGroups r.1) = some 0 := by
  have h1 : generateTrackedChangesP14 original edited = some ([Node.run edited], 0) := by
    rw [generateTrackedChangesP14, if_pos h]
  exact ⟨h1, by rw [h1]; rfl⟩

/-- C10 witness: a concrete 5001-word original. -/
theorem C10_large_documents_witness :
    (jsSplitWs bigOriginal).length > 5000 ∧
    (generateTrackedChangesP14 bigOriginal "short edit" = some ([Node.run "short edit"], 0)
    ∧ (generateTrackedChangesP14 bigOriginal "short edit").map (fun r => countGroups r.1) =
        some 0) :=
  ⟨by rw [bigOriginal_words, List.length_replicate]; decide,
    C10_large_documents_skip_diff bigOriginal "short edit"
      (by rw [bigOriginal_words, List.length_replicate]; decide)⟩

/-- Sanity checks of the tokenizer against JavaScript `split(/\s+/)`
semantics and of the embedded generators on small inputs. -/
theorem sanity_checks :
    jsSplitWs "" = [""]
    ∧ jsSplitWs " a" = ["", "a"]
    ∧ jsSplitWs "a " = ["a", ""]
    ∧ jsSplitWs "a  b" = ["a", "b"]
    ∧ jsTrim "  a b \n" = "a b"
    ∧ generateTrackedChangesP13 "a x c" "a y c" =
        some ([Node.run "a", Node.group [GNode.del "x", GNode.ins "y"], Node.run "c"], 1)
    ∧ refFormat [DPart.del "a", DPart.equal "e", DPart.ins "i", DPart.del "d"] =
        [Node.group [GNode.del "a"], Node.run "e", Node.group [GNode.ins "i", GNode.del "d"]]
    ∧ areWordsSimilar "kno" "know" = true := by
  decide
